import Mathlib

/-!
Verification of the EndpointSlice core of
pilot/pkg/serviceregistry/kube/controller/endpointslice.go.

The Go code is shallowly embedded as executable Lean definitions:

* Go maps are modelled as association lists.  A Go map has no observable
  iteration order; the model fixes one concrete order (erase the key,
  append the new binding at the end), which realises one of the orders a
  Go map may present.  Lookup, insert-overwrite and delete semantics are
  exactly those of a Go map.
* The identity-resolution collaborator getPod is abstracted as a function
  from (address, target reference) to (optional pod, expectedPod), the two
  values the Go code consumes.
* buildIstioEndpoint's enrichment (pod metadata, discoverability policy)
  is summarised in a Pod field; the processor overwrites HealthStatus
  afterwards, as in the source.
* int32 port numbers are modelled as Int (no arithmetic is performed on
  them anywhere in this file, so overflow cannot be observed).
-/

/-- Association-list lookup, mirroring Go map read (value, found). -/
def alookup [DecidableEq α] (k : α) : List (α × β) → Option β
  | [] => none
  | (k', v) :: rest => if k' = k then some v else alookup k rest

/-- Association-list delete, mirroring Go map delete (removes the key). -/
def aerase [DecidableEq α] (k : α) : List (α × β) → List (α × β)
  | [] => []
  | (k', v) :: rest => if k' = k then aerase k rest else (k', v) :: aerase k rest

/-- Association-list insert-overwrite, mirroring Go map assignment.  The
model erases the key and appends the new binding; a Go map presents no
iteration order, so this fixes one admissible order. -/
def aupsert [DecidableEq α] (k : α) (v : β) (l : List (α × β)) : List (α × β) :=
  aerase k l ++ [(k, v)]

/-- model.HealthStatus values used by this file of the source. -/
inductive HealthStatus where
  | Healthy
  | UnHealthy
  | Draining
  deriving DecidableEq

/-- model.IstioEndpoint, restricted to the fields this source file writes
or reads: address, endpoint port, service port name, health status, and
the enrichment carried by the endpoint builder (summarised as the pod). -/
structure IstioEndpoint where
  Address : String
  EndpointPort : Int
  ServicePortName : String
  HealthStatus : HealthStatus
  Pod : Option String
  deriving DecidableEq

/-- endpointKey uniquely identifies an endpoint by IP and port name;
used for deduping endpoints across slices (source lines 324-329). -/
structure endpointKey where
  ip : String
  port : String
  deriving DecidableEq

/-- v1.AddressType of an EndpointSlice. -/
inductive AddressType where
  | IPv4
  | IPv6
  | FQDN
  deriving DecidableEq

/-- v1.EndpointConditions: Ready and Serving are tri-state pointers. -/
structure EndpointConditions where
  Ready : Option Bool
  Serving : Option Bool
  deriving DecidableEq

/-- v1.Endpoint: addresses, conditions, and an opaque target reference
consumed only by identity resolution. -/
structure Endpoint where
  Addresses : List String
  Conditions : EndpointConditions
  TargetRef : Option String
  deriving DecidableEq

/-- v1.EndpointPort: both name and number are optional pointers. -/
structure EndpointPort where
  Name : Option String
  Port : Option Int
  deriving DecidableEq

/-- v1.EndpointSlice, restricted to the fields the source reads. -/
structure EndpointSlice where
  Name : String
  AddressType : AddressType
  Endpoints : List Endpoint
  Ports : List EndpointPort
  deriving DecidableEq

/-- model.Port: a declared service port (name, number). -/
structure ServicePort where
  Name : String
  Port : Int
  deriving DecidableEq

/-- model.ServiceAttributes, restricted to the fields the source reads.
Labels is an optional map, mirroring a possibly-nil Go map. -/
structure ServiceAttributes where
  Name : String
  Namespace : String
  Labels : Option (List (String × String))
  deriving DecidableEq

/-- model.Service, restricted to the fields the source reads. -/
structure Service where
  Hostname : String
  Attributes : ServiceAttributes
  Ports : List ServicePort
  deriving DecidableEq

/-- model.ServiceInstance as built by this source file. -/
structure ServiceInstance where
  Endpoint : IstioEndpoint
  ServicePort : ServicePort
  Service : Service
  deriving DecidableEq

/-- The feature toggles read by the processor: SendUnhealthyEndpoints and
PersistentSessionLabel (empty string = feature disabled). -/
structure Features where
  SendUnhealthyEndpoints : Bool
  PersistentSessionLabel : String
  deriving DecidableEq

/-- The identity-resolution collaborator getPod, abstracted as a function
of the address and the target reference, returning the optional pod and
the expectedPod signal. -/
abbrev GetPod := String → Option String → Option String × Bool

/-- EndpointBuilder.buildIstioEndpoint, abstracted: the enrichment the Go
builder derives from the pod and discoverability policy is summarised in
the Pod field.  Health status is overwritten by the caller, as in Go. -/
def buildIstioEndpoint (pod : Option String) (address : String)
    (endpointPort : Int) (svcPortName : String) : IstioEndpoint :=
  { Address := address
    EndpointPort := endpointPort
    ServicePortName := svcPortName
    HealthStatus := HealthStatus.Healthy
    Pod := pod }

/-- model.PortList.GetByPort: first declared service port with the given
number. -/
def GetByPort (ports : List ServicePort) (n : Int) : Option ServicePort :=
  ports.find? (fun p => p.Port == n)

/-- endpointSliceCache (source lines 331-341): hostname to slice name to
endpoint list.  The RWMutex is not modelled: every operation is atomic in
the model, which is exactly what the lock establishes. -/
structure endpointSliceCache where
  endpointsByServiceAndSlice : List (String × List (String × List IstioEndpoint))
  deriving DecidableEq

/-- newEndpointSliceCache: the empty cache. -/
def newEndpointSliceCache : endpointSliceCache := ⟨[]⟩

/-- endpointSliceCache.Update (source lines 343-359): if the incoming list
is empty the slice key is deleted, then the service's inner map is created
if missing, and the slice binding is unconditionally overwritten. -/
def endpointSliceCache.Update (e : endpointSliceCache) (hostname slice : String)
    (endpoints : List IstioEndpoint) : endpointSliceCache :=
  let inner0 := (alookup hostname e.endpointsByServiceAndSlice).getD []
  let inner1 := if endpoints.isEmpty then aerase slice inner0 else inner0
  let inner2 := aupsert slice endpoints inner1
  ⟨aupsert hostname inner2 e.endpointsByServiceAndSlice⟩

/-- endpointSliceCache.Delete (source lines 361-369): delete the slice
binding; if the service's inner map became empty, delete the service. -/
def endpointSliceCache.Delete (e : endpointSliceCache) (hostname slice : String) :
    endpointSliceCache :=
  let inner0 := (alookup hostname e.endpointsByServiceAndSlice).getD []
  let inner1 := aerase slice inner0
  if inner1.isEmpty then ⟨aerase hostname e.endpointsByServiceAndSlice⟩
  else ⟨aupsert hostname inner1 e.endpointsByServiceAndSlice⟩

/-- The dedup loop of endpointSliceCache.Get: walk the flattened endpoint
list, keeping the first endpoint seen for each (address, port name) key. -/
def dedupEndpoints : List IstioEndpoint → List endpointKey → List IstioEndpoint
  | [], _ => []
  | ep :: rest, found =>
    let key : endpointKey := ⟨ep.Address, ep.ServicePortName⟩
    if key ∈ found then dedupEndpoints rest found
    else ep :: dedupEndpoints rest (key :: found)

/-- endpointSliceCache.Get (source lines 371-389): flatten all slices of
the service and dedup by (address, service port name), first seen wins. -/
def endpointSliceCache.Get (e : endpointSliceCache) (hostname : String) :
    List IstioEndpoint :=
  dedupEndpoints
    ((((alookup hostname e.endpointsByServiceAndSlice).getD []).map Prod.snd).flatten)
    []

/-- endpointSliceCache.Has (source lines 391-396): the service key exists. -/
def endpointSliceCache.Has (e : endpointSliceCache) (hostname : String) : Bool :=
  (alookup hostname e.endpointsByServiceAndSlice).isSome

/-- The readiness test of source line 203: Ready is non-nil and false. -/
def readyExplicitlyFalse (e : Endpoint) : Bool :=
  match e.Conditions.Ready with
  | some b => !b
  | none => false

/-- The readiness value of source line 209: Ready is nil or true. -/
def readyB (e : Endpoint) : Bool :=
  match e.Conditions.Ready with
  | none => true
  | some b => b

/-- The draining condition of source lines 194-201: persistent sessions
enabled, service present and carrying the label with a non-empty value,
Ready and Serving non-nil, Serving true and Ready false. -/
def drainingB (feat : Features) (svc : Option Service) (e : Endpoint) : Bool :=
  (feat.PersistentSessionLabel != "") &&
  (match svc with
   | none => false
   | some s =>
     match s.Attributes.Labels with
     | none => false
     | some labels => (alookup feat.PersistentSessionLabel labels).getD "" != "") &&
  (match e.Conditions.Ready, e.Conditions.Serving with
   | some r, some sv => sv && !r
   | _, _ => false)

/-- The per-endpoint-entry body of updateEndpointCacheForSlice (source
lines 191-237): skip not-ready entries unless draining or
SendUnhealthyEndpoints; per surviving address resolve the pod and skip
when expected but missing; per declared slice port build one endpoint
(missing port number defaults to 0, missing name to the empty string)
with health Healthy, Draining, or UnHealthy. -/
def processEntry (feat : Features) (svc : Option Service) (getPod : GetPod)
    (slice : EndpointSlice) (e : Endpoint) : List IstioEndpoint :=
  let draining := drainingB feat svc e
  if !feat.SendUnhealthyEndpoints && !draining && readyExplicitlyFalse e then []
  else
    let ready := readyB e
    e.Addresses.flatMap (fun a =>
      let pe := getPod a e.TargetRef
      if pe.1.isNone && pe.2 then []
      else
        slice.Ports.map (fun port =>
          let portNum := port.Port.getD 0
          let portName := port.Name.getD ""
          let ie := buildIstioEndpoint pe.1 a portNum portName
          { ie with
            HealthStatus :=
              if ready then HealthStatus.Healthy
              else if draining then HealthStatus.Draining
              else HealthStatus.UnHealthy }))

/-- updateEndpointCacheForSlice (source lines 181-240): FQDN slices return
before touching the cache; otherwise the computed list for the whole slice
is written through Update under the slice name. -/
def updateEndpointCacheForSlice (feat : Features) (svc : Option Service)
    (getPod : GetPod) (c : endpointSliceCache) (hostName : String)
    (slice : EndpointSlice) : endpointSliceCache :=
  if slice.AddressType = AddressType.FQDN then c
  else
    c.Update hostName slice.Name
      (slice.Endpoints.flatMap (processEntry feat svc getPod slice))

/-- InstancesByPort (source lines 268-322): resolve the declared service
port by number; per non-FQDN slice, per entry, per address surviving
identity resolution, per slice port that is unnamed or named like the
service port, emit one ServiceInstance.  No deduplication. -/
def InstancesByPort (getPod : GetPod) (svc : Service) (reqSvcPort : Int)
    (slices : List EndpointSlice) : List ServiceInstance :=
  if slices.isEmpty then []
  else
    match GetByPort svc.Ports reqSvcPort with
    | none => []
    | some svcPort =>
      slices.flatMap (fun slice =>
        if slice.AddressType = AddressType.FQDN then []
        else
          slice.Endpoints.flatMap (fun e =>
            e.Addresses.flatMap (fun a =>
              let pe := getPod a e.TargetRef
              if pe.1.isNone && pe.2 then []
              else
                slice.Ports.flatMap (fun port =>
                  if port.Name = none ∨ port.Name = some svcPort.Name then
                    [{ Endpoint := buildIstioEndpoint pe.1 a (port.Port.getD 0) svcPort.Name
                       ServicePort := svcPort
                       Service := svc }]
                  else []))))

/-- The spec-side reading of the by-port query (claim C9, spec section
4.3): one ServiceInstance for every (partition, entry, address,
partition-port) combination where the address's identity resolves when
expected to and the partition port is unnamed or named like the declared
service port; no deduplication, and no condition on the partition's
address family. -/
def instancesByPortClaimed (getPod : GetPod) (svc : Service) (reqSvcPort : Int)
    (slices : List EndpointSlice) : List ServiceInstance :=
  match GetByPort svc.Ports reqSvcPort with
  | none => []
  | some svcPort =>
    slices.flatMap (fun slice =>
      slice.Endpoints.flatMap (fun e =>
        e.Addresses.flatMap (fun a =>
          let pe := getPod a e.TargetRef
          if pe.1.isNone && pe.2 then []
          else
            slice.Ports.flatMap (fun port =>
              if port.Name = none ∨ port.Name = some svcPort.Name then
                [{ Endpoint := buildIstioEndpoint pe.1 a (port.Port.getD 0) svcPort.Name
                   ServicePort := svcPort
                   Service := svc }]
              else []))))

/-! ## Association-list lemmas -/

theorem alookup_append [DecidableEq α] (k : α) (l1 l2 : List (α × β)) :
    alookup k (l1 ++ l2) =
      match alookup k l1 with
      | some v => some v
      | none => alookup k l2 := by
  induction l1 with
  | nil => simp [alookup]
  | cons kv rest ih =>
    obtain ⟨k', v⟩ := kv
    by_cases h : k' = k
    · simp [alookup, h]
    · simp [alookup, h, ih]

theorem alookup_aerase_self [DecidableEq α] (k : α) (l : List (α × β)) :
    alookup k (aerase k l) = none := by
  induction l with
  | nil => simp [aerase, alookup]
  | cons kv rest ih =>
    obtain ⟨k', v⟩ := kv
    by_cases h : k' = k
    · simp [aerase, h, ih]
    · simp [aerase, alookup, h, ih]

theorem alookup_aerase_ne [DecidableEq α] {q k : α} (h : q ≠ k) (l : List (α × β)) :
    alookup q (aerase k l) = alookup q l := by
  induction l with
  | nil => rfl
  | cons kv rest ih =>
    obtain ⟨k', v⟩ := kv
    by_cases hk : k' = k
    · subst hk
      have hkq : k' ≠ q := fun hx => h hx.symm
      simp [aerase, alookup, hkq, ih]
    · by_cases hq : k' = q
      · simp [aerase, alookup, hk, hq, h]
      · simp [aerase, alookup, hk, hq, ih]

theorem aerase_append [DecidableEq α] (k : α) (l1 l2 : List (α × β)) :
    aerase k (l1 ++ l2) = aerase k l1 ++ aerase k l2 := by
  induction l1 with
  | nil => rfl
  | cons kv rest ih =>
    obtain ⟨k', v⟩ := kv
    by_cases h : k' = k
    · simp [aerase, h, ih]
    · simp [aerase, h, ih]

theorem mem_aerase [DecidableEq α] {x : α × β} {k : α} {l : List (α × β)} :
    x ∈ aerase k l ↔ x ∈ l ∧ x.1 ≠ k := by
  induction l with
  | nil => simp [aerase]
  | cons kv rest ih =>
    obtain ⟨k', v⟩ := kv
    by_cases h : k' = k
    · subst h
      rw [show aerase k' ((k', v) :: rest) = aerase k' rest by simp [aerase]]
      rw [ih]
      simp only [List.mem_cons]
      constructor
      · rintro ⟨h1, h2⟩
        exact ⟨Or.inr h1, h2⟩
      · rintro ⟨h1 | h1, h2⟩
        · cases h1
          exact absurd rfl h2
        · exact ⟨h1, h2⟩
    · rw [show aerase k ((k', v) :: rest) = (k', v) :: aerase k rest by simp [aerase, h]]
      simp only [List.mem_cons, ih]
      constructor
      · rintro (h1 | ⟨h1, h2⟩)
        · refine ⟨Or.inl h1, ?_⟩
          cases h1
          exact h
        · exact ⟨Or.inr h1, h2⟩
      · rintro ⟨h1 | h1, h2⟩
        · exact Or.inl h1
        · exact Or.inr ⟨h1, h2⟩

theorem aerase_aerase [DecidableEq α] (k : α) (l : List (α × β)) :
    aerase k (aerase k l) = aerase k l := by
  induction l with
  | nil => rfl
  | cons kv rest ih =>
    obtain ⟨k', v⟩ := kv
    by_cases h : k' = k
    · simp [aerase, h, ih]
    · simp [aerase, h, ih]

theorem alookup_aupsert_self [DecidableEq α] (k : α) (v : β) (l : List (α × β)) :
    alookup k (aupsert k v l) = some v := by
  unfold aupsert
  rw [alookup_append, alookup_aerase_self]
  simp [alookup]

theorem alookup_aupsert_ne [DecidableEq α] {q k : α} (h : q ≠ k) (v : β)
    (l : List (α × β)) :
    alookup q (aupsert k v l) = alookup q l := by
  unfold aupsert
  rw [alookup_append, alookup_aerase_ne h]
  cases hq : alookup q l with
  | none =>
    have hkq : ¬k = q := fun hx => h hx.symm
    simp [alookup, hkq]
  | some w => simp

theorem aerase_aupsert_self [DecidableEq α] (k : α) (v : β) (l : List (α × β)) :
    aerase k (aupsert k v l) = aerase k l := by
  unfold aupsert
  rw [aerase_append, aerase_aerase]
  simp [aerase]

theorem aupsert_aupsert [DecidableEq α] (k : α) (v1 v2 : β) (l : List (α × β)) :
    aupsert k v2 (aupsert k v1 l) = aupsert k v2 l := by
  show aerase k (aupsert k v1 l) ++ [(k, v2)] = aerase k l ++ [(k, v2)]
  rw [aerase_aupsert_self]

theorem mem_aupsert [DecidableEq α] {x : α × β} {k : α} {v : β} {l : List (α × β)} :
    x ∈ aupsert k v l ↔ (x ∈ l ∧ x.1 ≠ k) ∨ x = (k, v) := by
  simp [aupsert, mem_aerase, List.mem_append]

/-! ## Dedup and cache helpers -/

/-- The dedup key of a canonical endpoint: its endpointKey, exactly as
built at source line 378. -/
def epKey (ep : IstioEndpoint) : endpointKey :=
  ⟨ep.Address, ep.ServicePortName⟩

/-- The inner per-slice map a service is bound to in the cache (the empty
map when the service is absent, as for a nil Go map). -/
def innerOf (c : endpointSliceCache) (s : String) :
    List (String × List IstioEndpoint) :=
  (alookup s c.endpointsByServiceAndSlice).getD []

/-- The flattened, un-deduplicated contributions of all slices of a
service: what the loop of Get ranges over. -/
def allContributions (c : endpointSliceCache) (s : String) : List IstioEndpoint :=
  ((innerOf c s).map Prod.snd).flatten

/-- Endpoint ep is contributed to service s by slice q in cache c. -/
def contributes (c : endpointSliceCache) (s q : String) (ep : IstioEndpoint) : Prop :=
  ∃ v, (q, v) ∈ innerOf c s ∧ ep ∈ v

theorem mem_of_mem_dedupEndpoints {l : List IstioEndpoint} {seen : List endpointKey}
    {ep : IstioEndpoint} (h : ep ∈ dedupEndpoints l seen) : ep ∈ l := by
  induction l generalizing seen with
  | nil => simp [dedupEndpoints] at h
  | cons x rest ih =>
    by_cases hk : (⟨x.Address, x.ServicePortName⟩ : endpointKey) ∈ seen
    · rw [show dedupEndpoints (x :: rest) seen = dedupEndpoints rest seen by
        simp [dedupEndpoints, hk]] at h
      exact List.mem_cons_of_mem _ (ih h)
    · rw [show dedupEndpoints (x :: rest) seen =
          x :: dedupEndpoints rest (⟨x.Address, x.ServicePortName⟩ :: seen) by
        simp [dedupEndpoints, hk]] at h
      rcases List.mem_cons.mp h with h1 | h1
      · exact h1 ▸ List.mem_cons_self x rest
      · exact List.mem_cons_of_mem _ (ih h1)

theorem epKey_mem_dedupEndpoints {l : List IstioEndpoint} {seen : List endpointKey}
    {k : endpointKey} :
    k ∈ (dedupEndpoints l seen).map epKey ↔ k ∈ l.map epKey ∧ k ∉ seen := by
  induction l generalizing seen with
  | nil => simp [dedupEndpoints]
  | cons x rest ih =>
    by_cases hk : (⟨x.Address, x.ServicePortName⟩ : endpointKey) ∈ seen
    · rw [show dedupEndpoints (x :: rest) seen = dedupEndpoints rest seen by
        simp [dedupEndpoints, hk]]
      rw [ih]
      simp only [List.map_cons, List.mem_cons]
      constructor
      · rintro ⟨h1, h2⟩
        exact ⟨Or.inr h1, h2⟩
      · rintro ⟨h1 | h1, h2⟩
        · exact absurd (h1 ▸ hk) h2
        · exact ⟨h1, h2⟩
    · rw [show dedupEndpoints (x :: rest) seen =
          x :: dedupEndpoints rest (⟨x.Address, x.ServicePortName⟩ :: seen) by
        simp [dedupEndpoints, hk]]
      simp only [List.map_cons, List.mem_cons, ih]
      constructor
      · rintro (h1 | ⟨h1, h2⟩)
        · refine ⟨Or.inl h1, ?_⟩
          cases h1
          exact hk
        · refine ⟨Or.inr h1, ?_⟩
          intro hs
          exact h2 (Or.inr hs)
      · rintro ⟨h1 | h1, h2⟩
        · exact Or.inl h1
        · by_cases hx : k = epKey x
          · exact Or.inl hx
          · refine Or.inr ⟨h1, ?_⟩
            rintro (hs1 | hs1)
            · exact hx hs1
            · exact h2 hs1

theorem nodup_epKey_dedupEndpoints (l : List IstioEndpoint) (seen : List endpointKey) :
    ((dedupEndpoints l seen).map epKey).Nodup := by
  induction l generalizing seen with
  | nil => simp [dedupEndpoints]
  | cons x rest ih =>
    by_cases hk : (⟨x.Address, x.ServicePortName⟩ : endpointKey) ∈ seen
    · rw [show dedupEndpoints (x :: rest) seen = dedupEndpoints rest seen by
        simp [dedupEndpoints, hk]]
      exact ih seen
    · rw [show dedupEndpoints (x :: rest) seen =
          x :: dedupEndpoints rest (⟨x.Address, x.ServicePortName⟩ :: seen) by
        simp [dedupEndpoints, hk]]
      simp only [List.map_cons]
      refine List.nodup_cons.mpr ⟨?_, ih _⟩
      intro hmem
      have := epKey_mem_dedupEndpoints.mp hmem
      exact this.2 (List.mem_cons_self _ _)

theorem mem_allContributions {c : endpointSliceCache} {s : String}
    {ep : IstioEndpoint} :
    ep ∈ allContributions c s ↔ ∃ q, contributes c s q ep := by
  unfold allContributions contributes
  rw [List.mem_flatten]
  constructor
  · rintro ⟨l, hl, hep⟩
    rcases List.mem_map.mp hl with ⟨⟨q, v⟩, hqv, rfl⟩
    exact ⟨q, v, hqv, hep⟩
  · rintro ⟨q, v, hqv, hep⟩
    exact ⟨v, List.mem_map.mpr ⟨(q, v), hqv, rfl⟩, hep⟩

theorem Get_eq_dedup (c : endpointSliceCache) (s : String) :
    c.Get s = dedupEndpoints (allContributions c s) [] := rfl

/-! ## Cache-state formulas -/

theorem cache_ext {a b : endpointSliceCache}
    (h : a.endpointsByServiceAndSlice = b.endpointsByServiceAndSlice) : a = b := by
  cases a
  cases b
  cases h
  rfl

theorem Update_ebss (c : endpointSliceCache) (s p : String) (E : List IstioEndpoint) :
    (c.Update s p E).endpointsByServiceAndSlice =
      aupsert s
        (aupsert p E (if E.isEmpty then aerase p (innerOf c s) else innerOf c s))
        c.endpointsByServiceAndSlice := rfl

theorem Delete_ebss (c : endpointSliceCache) (s p : String) :
    (c.Delete s p).endpointsByServiceAndSlice =
      if (aerase p (innerOf c s)).isEmpty then aerase s c.endpointsByServiceAndSlice
      else aupsert s (aerase p (innerOf c s)) c.endpointsByServiceAndSlice := by
  unfold endpointSliceCache.Delete innerOf
  by_cases h : (aerase p ((alookup s c.endpointsByServiceAndSlice).getD [])).isEmpty
  · simp [h]
  · simp [h]

theorem innerOf_Update_self (c : endpointSliceCache) (s p : String)
    (E : List IstioEndpoint) :
    innerOf (c.Update s p E) s =
      aupsert p E (if E.isEmpty then aerase p (innerOf c s) else innerOf c s) := by
  unfold innerOf
  rw [Update_ebss, alookup_aupsert_self]
  rfl

theorem aupsert_ne_nil [DecidableEq α] (k : α) (v : β) (l : List (α × β)) :
    aupsert k v l ≠ [] := by
  simp [aupsert]

/-! ## Cache claims -/

/-- A concrete canonical endpoint used by concrete instantiations. -/
def sampleEndpointA : IstioEndpoint :=
  ⟨"10.0.0.1", 80, "http", HealthStatus.Healthy, none⟩

/-- A second concrete canonical endpoint with a different address. -/
def sampleEndpointB : IstioEndpoint :=
  ⟨"10.0.0.2", 80, "http", HealthStatus.Healthy, none⟩

/-- Claim C7: Update is idempotent on the whole cache state: applying
Update(s, p, E) twice, for any endpoint list E including the empty one,
yields the same cache state as applying it once, and hence the same
Get(s). -/
theorem Update_idempotent (c : endpointSliceCache) (s p : String)
    (E : List IstioEndpoint) :
    (c.Update s p E).Update s p E = c.Update s p E := by
  apply cache_ext
  rw [Update_ebss, Update_ebss, innerOf_Update_self]
  cases hE : E.isEmpty with
  | false =>
    simp only [hE, Bool.false_eq_true, if_false]
    rw [aupsert_aupsert, aupsert_aupsert]
  | true =>
    simp only [hE, if_true]
    rw [aerase_aupsert_self, aerase_aerase, aupsert_aupsert]

/-- Claim C2: Get deduplicates: the returned list carries pairwise
distinct (address, port name) keys, and a key appears in the returned
list exactly when some slice of the service contributes it. -/
theorem Get_at_most_one_per_key (c : endpointSliceCache) (s : String) :
    ((c.Get s).map epKey).Nodup ∧
      ∀ k : endpointKey,
        k ∈ (c.Get s).map epKey ↔ k ∈ (allContributions c s).map epKey := by
  constructor
  · rw [Get_eq_dedup]
    exact nodup_epKey_dedupEndpoints _ _
  · intro k
    rw [Get_eq_dedup, epKey_mem_dedupEndpoints]
    simp

/-- Claim C3: replacement, not merge: after Update(s, p, E1) then
Update(s, p, E2), every endpoint Get(s) returns either lies in E2 or was
contributed by a slice other than p already in the starting cache;
entries unique to E1 are gone. -/
theorem Update_replaces_not_merges (c : endpointSliceCache) (s p : String)
    (E1 E2 : List IstioEndpoint) (ep : IstioEndpoint)
    (h : ep ∈ ((c.Update s p E1).Update s p E2).Get s) :
    ep ∈ E2 ∨ ∃ q, q ≠ p ∧ contributes c s q ep := by
  rw [Get_eq_dedup] at h
  rcases mem_allContributions.mp (mem_of_mem_dedupEndpoints h) with ⟨q, v, hqv, hep⟩
  rw [innerOf_Update_self] at hqv
  rcases mem_aupsert.mp hqv with ⟨hv2, hq⟩ | heq
  · have hv1 : (q, v) ∈ innerOf (c.Update s p E1) s := by
      by_cases hE : E2.isEmpty
      · rw [if_pos hE] at hv2
        exact (mem_aerase.mp hv2).1
      · rw [if_neg hE] at hv2
        exact hv2
    rw [innerOf_Update_self] at hv1
    rcases mem_aupsert.mp hv1 with ⟨hv0, _⟩ | heq1
    · have hv : (q, v) ∈ innerOf c s := by
        by_cases hE : E1.isEmpty
        · rw [if_pos hE] at hv0
          exact (mem_aerase.mp hv0).1
        · rw [if_neg hE] at hv0
          exact hv0
      exact Or.inr ⟨q, hq, v, hv, hep⟩
    · exact absurd (congrArg Prod.fst heq1) hq
  · have hv : v = E2 := congrArg Prod.snd heq
    exact Or.inl (hv ▸ hep)

/-- Witness for C3 at a concrete input: after p contributes E1 = [A] and
then E2 = [B], the endpoint B that Get returns lies in E2 or in another
slice. -/
theorem Update_replaces_not_merges_witness :
    sampleEndpointB ∈ [sampleEndpointB] ∨
      ∃ q, q ≠ "p" ∧ contributes newEndpointSliceCache "s" q sampleEndpointB :=
  Update_replaces_not_merges newEndpointSliceCache "s" "p"
    [sampleEndpointA] [sampleEndpointB] sampleEndpointB (by decide)

/-- Claim C4: Update with the empty list keeps a recorded (empty) slice
binding: afterwards slice p is bound to the empty list, Has(s) reports
true, and everything Get(s) returns is contributed by a slice other
than p. -/
theorem Update_empty_keeps_entry (c : endpointSliceCache) (s p : String) :
    alookup p (innerOf (c.Update s p []) s) = some [] ∧
      (c.Update s p []).Has s = true ∧
      ∀ ep ∈ (c.Update s p []).Get s,
        ∃ q, q ≠ p ∧ contributes (c.Update s p []) s q ep := by
  refine ⟨?_, ?_, ?_⟩
  · rw [innerOf_Update_self]
    exact alookup_aupsert_self _ _ _
  · unfold endpointSliceCache.Has
    rw [Update_ebss, alookup_aupsert_self]
    rfl
  · intro ep hep
    rw [Get_eq_dedup] at hep
    rcases mem_allContributions.mp (mem_of_mem_dedupEndpoints hep) with ⟨q, v, hqv, hv⟩
    have hqv' := hqv
    rw [innerOf_Update_self] at hqv'
    rcases mem_aupsert.mp hqv' with ⟨_, hq⟩ | heq
    · exact ⟨q, hq, v, hqv, hv⟩
    · have : v = [] := congrArg Prod.snd heq
      exact absurd (this ▸ hv) (List.not_mem_nil ep)

/-- Witness for C4 at a concrete input: service s keeps its entry after
an empty update of slice p alongside slice q. -/
theorem Update_empty_keeps_entry_witness :
    alookup "p"
        (innerOf ((newEndpointSliceCache.Update "s" "q" [sampleEndpointA]).Update
          "s" "p" []) "s") = some [] ∧
      ((newEndpointSliceCache.Update "s" "q" [sampleEndpointA]).Update "s" "p" []).Has
          "s" = true ∧
      ∀ ep ∈ ((newEndpointSliceCache.Update "s" "q" [sampleEndpointA]).Update
          "s" "p" []).Get "s",
        ∃ q, q ≠ "p" ∧
          contributes ((newEndpointSliceCache.Update "s" "q" [sampleEndpointA]).Update
            "s" "p" []) "s" q ep :=
  Update_empty_keeps_entry (newEndpointSliceCache.Update "s" "q" [sampleEndpointA]) "s" "p"

/-- Claim C6: Delete removes exactly slice p's contribution: afterwards
p is unbound for s, every other slice contributes exactly what it did
before, and if p was the last remaining slice of s the whole service
entry is gone, so Has(s) reports false. -/
theorem Delete_removes_contribution (c : endpointSliceCache) (s p : String) :
    alookup p (innerOf (c.Delete s p) s) = none ∧
      (∀ q, q ≠ p → ∀ ep, (contributes (c.Delete s p) s q ep ↔ contributes c s q ep)) ∧
      (aerase p (innerOf c s) = [] → (c.Delete s p).Has s = false) := by
  by_cases hE : (aerase p (innerOf c s)).isEmpty
  · have hnil : aerase p (innerOf c s) = [] := List.isEmpty_iff.mp hE
    have hinner : innerOf (c.Delete s p) s = [] := by
      unfold innerOf
      rw [Delete_ebss, if_pos hE, alookup_aerase_self]
      rfl
    refine ⟨?_, ?_, ?_⟩
    · rw [hinner]
      rfl
    · intro q hq ep
      unfold contributes
      rw [hinner]
      constructor
      · rintro ⟨v, hv, _⟩
        exact absurd hv (List.not_mem_nil _)
      · rintro ⟨v, hv, hep⟩
        have : (q, v) ∈ aerase p (innerOf c s) := mem_aerase.mpr ⟨hv, hq⟩
        rw [hnil] at this
        exact absurd this (List.not_mem_nil _)
    · intro _
      unfold endpointSliceCache.Has
      rw [Delete_ebss, if_pos hE, alookup_aerase_self]
      rfl
  · have hinner : innerOf (c.Delete s p) s = aerase p (innerOf c s) := by
      unfold innerOf
      rw [Delete_ebss, if_neg hE, alookup_aupsert_self]
      rfl
    refine ⟨?_, ?_, ?_⟩
    · rw [hinner]
      exact alookup_aerase_self _ _
    · intro q hq ep
      unfold contributes
      rw [hinner]
      constructor
      · rintro ⟨v, hv, hep⟩
        exact ⟨v, (mem_aerase.mp hv).1, hep⟩
      · rintro ⟨v, hv, hep⟩
        exact ⟨v, mem_aerase.mpr ⟨hv, hq⟩, hep⟩
    · intro hnil
      exact absurd (List.isEmpty_iff.mpr hnil) hE

/-- Witness for C6 at a concrete input: deleting the only slice of a
service makes Has report false. -/
theorem Delete_removes_contribution_witness :
    ((newEndpointSliceCache.Update "s" "p" [sampleEndpointA]).Delete "s" "p").Has "s"
      = false :=
  (Delete_removes_contribution (newEndpointSliceCache.Update "s" "p" [sampleEndpointA])
    "s" "p").2.2 (by decide)

/-! ## Reachable states (claim C10) -/

/-- One mutating cache operation: Update or Delete. -/
inductive CacheOp where
  | update (s p : String) (eps : List IstioEndpoint)
  | delete (s p : String)

/-- Apply one operation to a cache state. -/
def applyOp (c : endpointSliceCache) : CacheOp → endpointSliceCache
  | CacheOp.update s p eps => c.Update s p eps
  | CacheOp.delete s p => c.Delete s p

/-- Run a sequence of operations from the empty cache. -/
def runOps (ops : List CacheOp) : endpointSliceCache :=
  ops.foldl applyOp newEndpointSliceCache

/-- No recorded service maps to an empty slice map. -/
def noEmptyService (c : endpointSliceCache) : Prop :=
  ∀ s inner, alookup s c.endpointsByServiceAndSlice = some inner → inner ≠ []

theorem noEmptyService_Update {c : endpointSliceCache} (h : noEmptyService c)
    (s p : String) (E : List IstioEndpoint) : noEmptyService (c.Update s p E) := by
  intro s' inner hl
  rw [Update_ebss] at hl
  by_cases hs : s' = s
  · subst hs
    rw [alookup_aupsert_self] at hl
    cases hl
    exact aupsert_ne_nil _ _ _
  · rw [alookup_aupsert_ne hs] at hl
    exact h s' inner hl

theorem noEmptyService_Delete {c : endpointSliceCache} (h : noEmptyService c)
    (s p : String) : noEmptyService (c.Delete s p) := by
  intro s' inner hl
  rw [Delete_ebss] at hl
  by_cases hE : (aerase p (innerOf c s)).isEmpty
  · rw [if_pos hE] at hl
    by_cases hs : s' = s
    · subst hs
      rw [alookup_aerase_self] at hl
      cases hl
    · rw [alookup_aerase_ne hs] at hl
      exact h s' inner hl
  · rw [if_neg hE] at hl
    by_cases hs : s' = s
    · subst hs
      rw [alookup_aupsert_self] at hl
      cases hl
      intro hnil
      exact hE (List.isEmpty_iff.mpr hnil)
    · rw [alookup_aupsert_ne hs] at hl
      exact h s' inner hl

theorem noEmptyService_foldl (ops : List CacheOp) :
    ∀ c : endpointSliceCache, noEmptyService c → noEmptyService (ops.foldl applyOp c) := by
  induction ops with
  | nil => exact fun c h => h
  | cons op rest ih =>
    intro c h
    refine ih (applyOp c op) ?_
    cases op with
    | update s p eps => exact noEmptyService_Update h s p eps
    | delete s p => exact noEmptyService_Delete h s p

/-- Claim C10: in every state reachable from the empty cache by Update
and Delete operations, a recorded service always carries at least one
slice binding, and Has(s) is true exactly when a slice binding is
recorded for s. -/
theorem reachable_no_empty_service (ops : List CacheOp) (s : String) :
    (∀ inner, alookup s (runOps ops).endpointsByServiceAndSlice = some inner →
      inner ≠ []) ∧
    ((runOps ops).Has s = true ↔
      ∃ inner, alookup s (runOps ops).endpointsByServiceAndSlice = some inner ∧
        inner ≠ []) := by
  have hinv : noEmptyService (runOps ops) := by
    refine noEmptyService_foldl ops newEndpointSliceCache ?_
    intro s' inner hl
    cases hl
  refine ⟨fun inner h => hinv s inner h, ?_⟩
  unfold endpointSliceCache.Has
  constructor
  · intro h
    cases hl : alookup s (runOps ops).endpointsByServiceAndSlice with
    | none =>
      rw [hl] at h
      simp at h
    | some inner => exact ⟨inner, rfl, hinv s inner hl⟩
  · rintro ⟨inner, hl, _⟩
    rw [hl]
    rfl

/-- Witness for C10 at a concrete input: after one empty update the
service's recorded slice map is non-empty. -/
theorem reachable_no_empty_service_witness :
    ([("p", ([] : List IstioEndpoint))] :
      List (String × List IstioEndpoint)) ≠ [] :=
  (reachable_no_empty_service [CacheOp.update "s" "p" []] "s").1
    [("p", [])] (by decide)

/-! ## Processor claims -/

/-- The health status the processor assigns to an included entry
(source lines 228-234): Healthy if ready, else Draining if draining,
else UnHealthy. -/
def entryStatus (feat : Features) (svc : Option Service) (e : Endpoint) : HealthStatus :=
  if readyB e then HealthStatus.Healthy
  else if drainingB feat svc e then HealthStatus.Draining
  else HealthStatus.UnHealthy

/-- The endpoints of one entry before health annotation: the cross
product of the entry's addresses surviving identity resolution with the
slice's declared ports. -/
def entryBase (getPod : GetPod) (slice : EndpointSlice) (e : Endpoint) :
    List IstioEndpoint :=
  e.Addresses.flatMap (fun a =>
    let pe := getPod a e.TargetRef
    if pe.1.isNone && pe.2 then []
    else
      slice.Ports.map (fun port =>
        buildIstioEndpoint pe.1 a (port.Port.getD 0) (port.Name.getD "")))

theorem flatMap_congr_fun {l : List α} {f g : α → List β}
    (h : ∀ a ∈ l, f a = g a) : l.flatMap f = l.flatMap g := by
  induction l with
  | nil => rfl
  | cons x rest ih =>
    simp only [List.flatMap_cons]
    rw [h x (List.mem_cons_self x rest), ih (fun a ha => h a (List.mem_cons_of_mem x ha))]

/-- Claim C1: the processor's per-entry inclusion and health outcome is
the decision table: when the entry is not ready, not draining, and
unhealthy endpoints are not sent, it is excluded entirely; otherwise its
surviving address-times-port endpoints are all emitted with the single
status Healthy if ready, else Draining if draining, else UnHealthy. -/
theorem processEntry_decision_table (feat : Features) (svc : Option Service)
    (getPod : GetPod) (slice : EndpointSlice) (e : Endpoint) :
    processEntry feat svc getPod slice e =
      if !feat.SendUnhealthyEndpoints && !drainingB feat svc e && readyExplicitlyFalse e
      then []
      else (entryBase getPod slice e).map
        (fun ie => { ie with HealthStatus := entryStatus feat svc e }) := by
  by_cases hskip :
      (!feat.SendUnhealthyEndpoints && !drainingB feat svc e && readyExplicitlyFalse e)
        = true
  · simp only [processEntry, hskip, if_true]
  · simp only [processEntry, entryBase, hskip, if_false, Bool.false_eq_true]
    rw [List.map_flatMap]
    apply flatMap_congr_fun
    intro a _
    by_cases hpe : ((getPod a e.TargetRef).1.isNone && (getPod a e.TargetRef).2) = true
    · simp only [hpe, if_true, List.map_nil]
    · simp only [hpe, if_false, Bool.false_eq_true, List.map_map]
      rfl

/-- A concrete resolver that reports no pod and no expectation. -/
def resolverNone : GetPod := fun _ _ => (none, false)

/-- Concrete feature toggles: unhealthy endpoints off, persistent
sessions disabled. -/
def defaultFeatures : Features := ⟨false, ""⟩

/-- A concrete ready endpoint entry. -/
def readyEntry : Endpoint := ⟨["10.0.0.1"], ⟨some true, none⟩, none⟩

/-- A concrete FQDN-addressed slice named p with a ready entry and a
well-formed declared port. -/
def fqdnSlice : EndpointSlice :=
  ⟨"p", AddressType.FQDN, [⟨["10.0.0.9"], ⟨some true, none⟩, none⟩],
    [⟨some "http", some 8080⟩]⟩

/-- A concrete cache in which slice p already contributes an endpoint to
service s. -/
def fqdnStaleCache : endpointSliceCache :=
  ⟨[("s", [("p", [sampleEndpointA])])]⟩

/-- Counterexample to claim C5 as stated: processing an FQDN payload for
slice p performs no Update at all — the cache is returned unchanged — so
slice p still contributes its stale endpoint to Get(s) instead of
contributing nothing. -/
theorem fqdn_payload_leaves_stale_contribution :
    updateEndpointCacheForSlice defaultFeatures none resolverNone fqdnStaleCache "s"
        fqdnSlice = fqdnStaleCache ∧
      (updateEndpointCacheForSlice defaultFeatures none resolverNone fqdnStaleCache "s"
        fqdnSlice).Get "s" = [sampleEndpointA] := by
  exact ⟨rfl, by decide⟩

/-- Claim C5 (amended): on an IP-addressed payload the processor ends by
writing the full computed canonical list through Update under the slice
name, unconditionally replacing the slice's prior binding even when the
list is empty; on a non-IP payload the cache is left unchanged (so a
prior contribution of that slice, if any, persists). -/
theorem updateEndpointCacheForSlice_writes (feat : Features) (svc : Option Service)
    (getPod : GetPod) (c : endpointSliceCache) (h : String) (slice : EndpointSlice) :
    (slice.AddressType ≠ AddressType.FQDN →
      updateEndpointCacheForSlice feat svc getPod c h slice =
        c.Update h slice.Name
          (slice.Endpoints.flatMap (processEntry feat svc getPod slice)) ∧
      alookup slice.Name
          (innerOf (updateEndpointCacheForSlice feat svc getPod c h slice) h) =
        some (slice.Endpoints.flatMap (processEntry feat svc getPod slice))) ∧
    (slice.AddressType = AddressType.FQDN →
      updateEndpointCacheForSlice feat svc getPod c h slice = c) := by
  constructor
  · intro hne
    have heq : updateEndpointCacheForSlice feat svc getPod c h slice =
        c.Update h slice.Name
          (slice.Endpoints.flatMap (processEntry feat svc getPod slice)) := by
      unfold updateEndpointCacheForSlice
      rw [if_neg hne]
    refine ⟨heq, ?_⟩
    rw [heq, innerOf_Update_self, alookup_aupsert_self]
  · intro hfq
    unfold updateEndpointCacheForSlice
    rw [if_pos hfq]

/-- A concrete IPv4 slice named p with a ready entry and one declared
port. -/
def ipSlice : EndpointSlice :=
  ⟨"p", AddressType.IPv4, [readyEntry], [⟨some "http", some 8080⟩]⟩

/-- Witness for the amended C5 at a concrete input: an IPv4 payload is
written through Update and its binding holds exactly the computed list. -/
theorem updateEndpointCacheForSlice_writes_witness :
    updateEndpointCacheForSlice defaultFeatures none resolverNone newEndpointSliceCache
        "s" ipSlice =
      newEndpointSliceCache.Update "s" ipSlice.Name
        (ipSlice.Endpoints.flatMap
          (processEntry defaultFeatures none resolverNone ipSlice)) ∧
    alookup ipSlice.Name
        (innerOf (updateEndpointCacheForSlice defaultFeatures none resolverNone
          newEndpointSliceCache "s" ipSlice) "s") =
      some (ipSlice.Endpoints.flatMap
        (processEntry defaultFeatures none resolverNone ipSlice)) :=
  (updateEndpointCacheForSlice_writes defaultFeatures none resolverNone
    newEndpointSliceCache "s" ipSlice).1 (by decide)

/-- A concrete IPv4 slice whose single declared port has neither a name
nor a number. -/
def unnamedPortSlice : EndpointSlice :=
  ⟨"p", AddressType.IPv4, [readyEntry], [⟨none, none⟩]⟩

/-- Counterexample to claim C8 as stated: a slice port with missing name
and number is not excluded by the processor — the canonical set it
produces for that slice contains an endpoint for that port, with number
0 and empty name. -/
theorem malformed_port_not_excluded :
    (updateEndpointCacheForSlice defaultFeatures none resolverNone newEndpointSliceCache
        "s" unnamedPortSlice).Get "s" =
      [⟨"10.0.0.1", 0, "", HealthStatus.Healthy, none⟩] := by
  decide

/-- Claim C8 (amended): the processor does not drop a slice port with a
missing name or number: for every entry surviving the health check and
every address surviving identity resolution, every declared slice port —
malformed or not — yields one canonical endpoint, the missing number
defaulting to 0 and the missing name to the empty string. -/
theorem processEntry_malformed_port_defaults (feat : Features) (svc : Option Service)
    (getPod : GetPod) (slice : EndpointSlice) (e : Endpoint) (a : String)
    (port : EndpointPort) (hport : port ∈ slice.Ports) (ha : a ∈ e.Addresses)
    (hskip : (!feat.SendUnhealthyEndpoints && !drainingB feat svc e &&
      readyExplicitlyFalse e) = false)
    (hres : ((getPod a e.TargetRef).1.isNone && (getPod a e.TargetRef).2) = false) :
    { buildIstioEndpoint (getPod a e.TargetRef).1 a (port.Port.getD 0) (port.Name.getD "")
        with HealthStatus := entryStatus feat svc e } ∈
      processEntry feat svc getPod slice e := by
  simp only [processEntry, hskip, if_false, Bool.false_eq_true]
  rw [List.mem_flatMap]
  refine ⟨a, ha, ?_⟩
  simp only [hres, if_false, Bool.false_eq_true]
  refine List.mem_map.mpr ⟨port, hport, ?_⟩
  unfold entryStatus readyB drainingB
  rfl

/-- Witness for the amended C8 at a concrete input: the port with no name
and no number yields the endpoint (10.0.0.1, 0, empty name, Healthy). -/
theorem processEntry_malformed_port_defaults_witness :
    (⟨"10.0.0.1", 0, "", HealthStatus.Healthy, none⟩ : IstioEndpoint) ∈
      processEntry defaultFeatures none resolverNone unnamedPortSlice readyEntry :=
  processEntry_malformed_port_defaults defaultFeatures none resolverNone
    unnamedPortSlice readyEntry "10.0.0.1" ⟨none, none⟩
    (by decide) (by decide) (by decide) (by decide)

/-! ## By-port resolver claims -/

theorem flatMap_skip_fqdn (l : List EndpointSlice)
    (g : EndpointSlice → List ServiceInstance) :
    l.flatMap (fun sl => if sl.AddressType = AddressType.FQDN then [] else g sl) =
      (l.filter (fun sl => sl.AddressType ≠ AddressType.FQDN)).flatMap g := by
  induction l with
  | nil => rfl
  | cons x rest ih =>
    by_cases hx : x.AddressType = AddressType.FQDN
    · simp [hx, ih]
    · simp [hx, ih]

/-- A concrete service declaring one port named http with number 80. -/
def sampleService : Service := ⟨"h", ⟨"n", "ns", none⟩, [⟨"http", 80⟩]⟩

/-- Counterexample to claim C9 as stated: the single FQDN partition holds
a combination meeting every condition the claim lists (the declared port
80 resolves, the address expects no identity, the partition port is
named like the service port), and the spec-side reading of the claim
emits one ServiceInstance for it, yet the by-port query returns none. -/
theorem byPort_fqdn_counterexample :
    InstancesByPort resolverNone sampleService 80 [fqdnSlice] = [] ∧
      instancesByPortClaimed resolverNone sampleService 80 [fqdnSlice] =
        [⟨buildIstioEndpoint none "10.0.0.9" 8080 "http", ⟨"http", 80⟩, sampleService⟩] := by
  decide

/-- Claim C9 (amended): the by-port query returns exactly one
ServiceInstance per (IP-addressed partition, entry, address,
partition-port) combination where the address's identity resolves when
expected to and the partition port is unnamed or named like the declared
service port, duplicates across overlapping partitions kept as-is: it
equals the claim's comprehension restricted to non-FQDN partitions. -/
theorem InstancesByPort_eq_claimed (getPod : GetPod) (svc : Service) (reqSvcPort : Int)
    (slices : List EndpointSlice) :
    InstancesByPort getPod svc reqSvcPort slices =
      instancesByPortClaimed getPod svc reqSvcPort
        (slices.filter (fun sl => sl.AddressType ≠ AddressType.FQDN)) := by
  unfold InstancesByPort instancesByPortClaimed
  by_cases hs : slices.isEmpty = true
  · have hnil : slices = [] := List.isEmpty_iff.mp hs
    subst hnil
    cases GetByPort svc.Ports reqSvcPort <;> rfl
  · rw [if_neg hs]
    cases GetByPort svc.Ports reqSvcPort with
    | none => rfl
    | some svcPort => exact flatMap_skip_fqdn slices _
